import Mathlib

/-!
Verification of the advanced-vector container (src/advanced-vector/vector.h).

The development embeds the container at three levels of detail, each derived
from the same source functions:

1. a value-level model (`Vec`): the live elements as a `List`, plus the owned
   arena capacity; element construction/destruction is abstracted away, which
   is adequate for claims about sizes, contents, capacities and return values;
2. a slot-level model (`Buf` of `Slot`): the arena as a list of slots that are
   either `raw` (uninitialized memory) or `live x` (a constructed object).
   Construction, destruction and copy are explicit, destruction of a non-live
   slot and construction over a live slot are modelled as undefined behaviour
   (`none` / `.ub`), and copy construction can fail on a chosen invocation
   (modelling a throwing copy constructor).  This level settles the
   exception-safety and lifetime claims;
3. an event model (`MVec`): elements and memory blocks carry identities and
   operations emit allocation/free/construct/destroy events, which settles the
   claims about destruction ordering relative to block deallocation.
-/

set_option linter.unusedVariables false

variable {α : Type}

/-- Growth rule of the relocating Emplace path (vector.h line 281,
`size_ == 0 ? 1 : size_ * 2`). -/
def growCap (size : Nat) : Nat :=
  if size = 0 then 1 else size * 2

/-- Value-level view of `Vector<T>`: `elems` lists the live elements
occupying slots `[0, size)` in order, `cap` is the capacity of the owned
`RawMemory` arena (`data_.Capacity()`). -/
structure Vec (α : Type) where
  elems : List α
  cap : Nat
  deriving DecidableEq, Repr

/-- Value-level model of `Vector::EmplaceWithRelocate` (vector.h 279-297),
assuming no exception is thrown (the instrumented variant is
`emplaceWithRelocateE` below).  A new arena of `growCap size` slots is
allocated, the new element is constructed at slot `index`, the prefix
`[0,index)` is relocated before it and the suffix `[index,size)` after it,
then the old elements are destroyed and the arenas swapped: the live contents
become `take index ++ x :: drop index` with the new capacity. -/
def emplaceWithRelocate (elems : List α) (index : Nat) (x : α) : List α × Nat :=
  (elems.take index ++ x :: elems.drop index, growCap elems.length)

/-- Value-level model of `Vector::EmplaceWithoutRelocate` (vector.h 299-314).
For `index ≠ size` the source materializes the argument in `temp`, constructs
a new tail slot from the last element, shifts `[index, size-1)` one step
toward the tail with `std::move_backward`, and assigns `temp` into slot
`index`; the net live contents are `take index ++ x :: drop index`.  For
`index = size` it placement-constructs directly into the free slot. -/
def emplaceWithoutRelocate (elems : List α) (index : Nat) (x : α) : List α :=
  if index ≠ elems.length then
    elems.take index ++ x :: elems.drop index
  else
    elems ++ [x]

/-- Model of `Vector::Emplace` (vector.h 239-249): `index` is the offset
`pos - cbegin()`; the relocating path runs when `size == capacity`, otherwise
the in-place path; `size` grows by one and the returned iterator is
`begin() + index`, modelled as the returned offset. -/
def emplace (v : Vec α) (index : Nat) (x : α) : Vec α × Nat :=
  if v.elems.length = v.cap then
    ((fun p => (⟨p.1, p.2⟩ : Vec α)) (emplaceWithRelocate v.elems index x), index)
  else
    (⟨emplaceWithoutRelocate v.elems index x, v.cap⟩, index)

/-- Model of `Vector::EmplaceBack` (vector.h 233-236): `Emplace(end(), ...)`,
i.e. emplacing at offset `size`; the reference returned by the source is the
element at the returned offset. -/
def emplaceBack (v : Vec α) (x : α) : Vec α × Nat :=
  emplace v v.elems.length x

/-- Model of `Vector::PushBack` (vector.h 218-224): delegates to
`EmplaceBack`. -/
def pushBack (v : Vec α) (x : α) : Vec α :=
  (emplaceBack v x).1

/-- Outcome of the compile-time branch in `Vector::SafetyMoveOrCopy`. -/
inductive RelocKind where
  | move
  | copy
  deriving DecidableEq, Repr

/-- Compile-time selection made by `Vector::SafetyMoveOrCopy`
(vector.h 271-277): `std::uninitialized_move_n` when
`std::is_nothrow_move_constructible_v<T> || !std::is_copy_constructible_v<T>`,
else `std::uninitialized_copy_n`.  The two Booleans are the two traits of the
element type. -/
def safetyMoveOrCopyKind (nothrowMoveConstructible copyConstructible : Bool) : RelocKind :=
  if nothrowMoveConstructible || !copyConstructible then .move else .copy

/-- Helper: on either path, the live elements after `emplace` are the original
ones with `x` inserted at offset `index`.  (For `index > size`, outside the
asserted precondition, both `take` and `drop` saturate, so no hypothesis is
needed for this equation.) -/
theorem emplace_fst_elems (v : Vec α) (index : Nat) (x : α) :
    (emplace v index x).1.elems = v.elems.take index ++ x :: v.elems.drop index := by
  unfold emplace emplaceWithRelocate emplaceWithoutRelocate
  by_cases h : v.elems.length = v.cap
  · simp [h]
  · simp only [h, if_false]
    by_cases hi : index = v.elems.length
    · subst hi
      simp [List.take_length, List.drop_length]
    · simp [hi]

/-- Helper: the returned offset of `emplace` is `index` on both paths. -/
theorem emplace_snd (v : Vec α) (index : Nat) (x : α) :
    (emplace v index x).2 = index := by
  unfold emplace
  by_cases h : v.elems.length = v.cap <;> simp [h]

/-- C5: relocation of live elements into a new arena uses move construction
exactly when the element type's move construction cannot fail or the type is
not copy-constructible, and copy construction in every other case; in
particular there is a trait combination on which it copies, so the selection
is never unconditionally a move.  The four conjuncts enumerate the complete
truth table of `Vector::SafetyMoveOrCopy`'s `if constexpr` condition. -/
theorem safetyMoveOrCopy_selection :
    safetyMoveOrCopyKind true true = .move ∧
    safetyMoveOrCopyKind true false = .move ∧
    safetyMoveOrCopyKind false false = .move ∧
    safetyMoveOrCopyKind false true = .copy := by
  decide

/-- C6: starting from a default-constructed vector (size 0, capacity 0),
pushing 1, 2, 3 yields sizes 1, 2, 3 with elements `[1]`, `[1,2]`, `[1,2,3]`
and capacities 1, 2, 4 (the `growCap` rule: 1 when the old size was 0, else
double the old size), and after each push the capacity is at least the
size. -/
theorem pushBack_scenario :
    pushBack (⟨[], 0⟩ : Vec Nat) 1 = ⟨[1], 1⟩ ∧
    pushBack (⟨[1], 1⟩ : Vec Nat) 2 = ⟨[1, 2], 2⟩ ∧
    pushBack (⟨[1, 2], 2⟩ : Vec Nat) 3 = ⟨[1, 2, 3], 4⟩ ∧
    ([1] : List Nat).length ≤ 1 ∧ ([1, 2] : List Nat).length ≤ 2 ∧
    ([1, 2, 3] : List Nat).length ≤ 4 := by
  decide

/-- C10: for every vector, offset `index ≤ size` and value, `Emplace` (hence
`Insert`) returns the offset `index` and the element at that offset of the
result is the inserted value, on both the relocating and the in-place path;
and `EmplaceBack` returns (a reference to) the new last element: its returned
offset is the old size, the element there is the appended value, and it is
the last live slot of the result. -/
theorem emplace_returns_inserted (v : Vec α) (index : Nat) (x : α)
    (h : index ≤ v.elems.length) :
    (emplace v index x).2 = index ∧
    (emplace v index x).1.elems[index]? = some x ∧
    (emplaceBack v x).2 = v.elems.length ∧
    (emplaceBack v x).1.elems[(emplaceBack v x).2]? = some x ∧
    (emplaceBack v x).2 + 1 = (emplaceBack v x).1.elems.length := by
  have key : ∀ j, j ≤ v.elems.length → (emplace v j x).1.elems[j]? = some x := by
    intro j hj
    rw [emplace_fst_elems]
    have hlen : (v.elems.take j).length = j := by
      simp [List.length_take]; omega
    rw [List.getElem?_append_right (by omega), hlen, Nat.sub_self]
    simp
  refine ⟨emplace_snd v index x, key index h, ?_, ?_, ?_⟩
  · exact emplace_snd v v.elems.length x
  · rw [emplaceBack, emplace_snd]
    exact key v.elems.length (Nat.le_refl _)
  · rw [emplaceBack, emplace_snd, emplace_fst_elems]
    simp [List.length_append]

/-- C10 witness: emplacing 9 at offset 1 of `[1,2]` returns offset 1 and the
element there is 9. -/
theorem emplace_returns_inserted_witness :
    1 ≤ ([1, 2] : List Nat).length ∧
    (emplace (⟨[1, 2], 2⟩ : Vec Nat) 1 9).1.elems[1]? = some 9 :=
  ⟨by decide, (emplace_returns_inserted ⟨[1, 2], 2⟩ 1 9 (by decide)).2.1⟩

/-- Slot of arena memory: `raw` is uninitialized storage holding no object,
`live x` holds the constructed object `x`.  An arena (`RawMemory` block) is a
list of slots whose length is the capacity. -/
inductive Slot (α : Type) where
  | raw
  | live (x : α)
  deriving DecidableEq, Repr

/-- Arena contents: one slot per element of capacity. -/
abbrev Buf (α : Type) := List (Slot α)

/-- Predicate used to state that a freed arena holds no live object. -/
def Slot.isRaw : Slot α → Bool
  | .raw => true
  | .live _ => false

/-- Destruction of the single object at slot `i` (one step of
`std::destroy_n`): destroying a slot that is absent or not live is undefined
behaviour, modelled as `none`. -/
def destroy1 (b : Buf α) (i : Nat) : Option (Buf α) :=
  match b[i]? with
  | some (.live _) => some (b.set i .raw)
  | _ => none

/-- Destruction of `n` objects starting at slot `start`
(`std::destroy_n(p + start, n)`), propagating undefined behaviour. -/
def destroyRun : Buf α → Nat → Nat → Option (Buf α)
  | b, _, 0 => some b
  | b, start, n + 1 =>
    match destroy1 b start with
    | some b1 => destroyRun b1 (start + 1) n
    | none => none

/-- Placement-construction of `x` at slot `i` (`new (p + i) T(...)`):
constructing outside the arena or over an already-live object is undefined
behaviour, modelled as `none`. -/
def construct1 (b : Buf α) (i : Nat) (x : α) : Option (Buf α) :=
  match b[i]? with
  | some .raw => some (b.set i (.live x))
  | _ => none

/-- Result of a fallible bulk-copy into an arena: success with the updated
arena and copy counter, a thrown exception with the arena as left after stack
unwinding, or undefined behaviour. -/
inductive CopyRes (α : Type) where
  | ok (b : Buf α) (c : Nat)
  | thrown (c : Nat) (b : Buf α)
  | ub
  deriving DecidableEq, Repr

/-- Model of `std::uninitialized_copy_n(src, n, dst + pos)` over a fallible
copy constructor: the copy with running invocation number `failAt` throws.
The counter `c` numbers copy invocations; per the standard's guarantee, on an
exception every element this call already constructed is destroyed before the
exception propagates (the `destroy1` in the `thrown` branch). -/
def uninitCopySlots (failAt : Nat) : Nat → List α → Buf α → Nat → CopyRes α
  | c, [], b, _ => .ok b c
  | c, x :: xs, b, pos =>
    if c = failAt then .thrown (c + 1) b
    else
      match construct1 b pos x with
      | none => .ub
      | some b1 =>
        match uninitCopySlots failAt (c + 1) xs b1 (pos + 1) with
        | .ok b2 c2 => .ok b2 c2
        | .thrown c2 b2 =>
          match destroy1 b2 pos with
          | some b3 => .thrown c2 b3
          | none => .ub
        | .ub => .ub

/-- Specification device: the arena obtained by writing `src` as live objects
into consecutive slots starting at `pos`. -/
def writeVals : Buf α → Nat → List α → Buf α
  | b, _, [] => b
  | b, pos, x :: xs => writeVals (b.set pos (.live x)) (pos + 1) xs

/-- Live objects of an arena, in slot order. -/
def liveVals : Buf α → List α
  | [] => []
  | .raw :: rest => liveVals rest
  | .live x :: rest => x :: liveVals rest

/-- Result of an exception-instrumented container operation: normal return
with the new container state, a thrown exception with the state the caller
still observes and the contents of the arena that the unwinding discarded,
or undefined behaviour. -/
inductive ExecResult (α : Type) where
  | ok (v : Vec α) (c : Nat)
  | thrown (c : Nat) (v : Vec α) (discarded : Buf α)
  | ub
  deriving DecidableEq, Repr

/-- Exception-instrumented model of `Vector::Reserve` (vector.h 198-206) on
the copy branch of `SafetyMoveOrCopy` (the branch that can fail; the move
branch is selected only when element moves cannot throw).  No-op when
`new_capacity <= Capacity()`; otherwise a fresh arena of exactly
`new_capacity` raw slots is allocated, the live elements are copied into it,
and only on success are the old elements destroyed and the arenas swapped.
On a throw the source leaves `data_` and `size_` untouched and the new arena
is deallocated by `RawMemory`'s destructor; `thrown` carries the unchanged
container state and that discarded arena. -/
def reserveE (failAt c : Nat) (v : Vec α) (newCap : Nat) : ExecResult α :=
  if newCap ≤ v.cap then .ok v c
  else
    match uninitCopySlots failAt c v.elems (List.replicate newCap .raw) 0 with
    | .ub => .ub
    | .thrown c1 arena => .thrown c1 v arena
    | .ok arena c1 => .ok ⟨liveVals arena, newCap⟩ c1

/-- Exception-instrumented model of `Vector::EmplaceWithRelocate`
(vector.h 279-297) on the copy branch of `SafetyMoveOrCopy`.  Mirrors the
source statement by statement: allocate `growCap size` raw slots, construct
the new element at slot `index` of the new arena, relocate the prefix
`[0,index)` (on a throw the catch destroys the just-placed new element and
rethrows), relocate the suffix `[index,size)` to slots from `index+1` (on a
throw the catch destroys the `index+1` objects already placed and rethrows),
and only then destroy the old elements and swap arenas. -/
def emplaceWithRelocateE (failAt c : Nat) (v : Vec α) (index : Nat) (x : α) :
    ExecResult α :=
  match construct1 (List.replicate (growCap v.elems.length) .raw) index x with
  | none => .ub
  | some a1 =>
    match uninitCopySlots failAt c (v.elems.take index) a1 0 with
    | .ub => .ub
    | .thrown c1 a =>
      match destroy1 a index with
      | some a2 => .thrown c1 v a2
      | none => .ub
    | .ok a2 c1 =>
      match uninitCopySlots failAt c1 (v.elems.drop index) a2 (index + 1) with
      | .ub => .ub
      | .thrown c2 a =>
        match destroyRun a 0 (index + 1) with
        | some a3 => .thrown c2 v a3
        | none => .ub
      | .ok a3 c2 => .ok ⟨liveVals a3, growCap v.elems.length⟩ c2

/-- Result of a fallible value-level element loop: the resulting list and
counter, or a throw with the list as left behind. -/
inductive AssignRes (α : Type) where
  | ok (l : List α) (c : Nat)
  | thrown (c : Nat) (l : List α)
  deriving DecidableEq, Repr

/-- Model of `std::copy_n(src, min(|dst|,|src|), dst)` over a fallible copy
assignment (the overlap branch of copy-assignment): assigns source values
onto destination slots left to right; a throw leaves the already-assigned
front in place and the stale back untouched (the documented torn state). -/
def copyAssignRun (failAt : Nat) : Nat → List α → List α → AssignRes α
  | c, [], dst => .ok dst c
  | c, _ :: _, [] => .ok [] c
  | c, x :: xs, d :: ds =>
    if c = failAt then .thrown (c + 1) (d :: ds)
    else
      match copyAssignRun failAt (c + 1) xs ds with
      | .ok ds1 c1 => .ok (x :: ds1) c1
      | .thrown c1 ds1 => .thrown c1 (x :: ds1)

/-- Model of `std::uninitialized_copy_n` at the value level (used for the
tail extension of the overlap branch, where the destination slots are fresh):
on a throw the partially constructed tail is destroyed again, so nothing of
it remains. -/
def uninitCopyVals (failAt : Nat) : Nat → List α → AssignRes α
  | c, [] => .ok [] c
  | c, x :: xs =>
    if c = failAt then .thrown (c + 1) []
    else
      match uninitCopyVals failAt (c + 1) xs with
      | .ok ys c1 => .ok (x :: ys) c1
      | .thrown c1 _ => .thrown c1 []

/-- Exception-instrumented model of `Vector::operator=(const Vector&)`
(vector.h 142-159), for `this != &rhs`.  When `rhs.size_ > Capacity()` the
source builds a complete temporary copy `Vector temp(rhs)` (an arena of
exactly `rhs.size_` raw slots filled by `std::uninitialized_copy_n`) and
swaps it in; a throw during the copy leaves the left-hand side untouched and
discards the temporary's arena.  Otherwise it copy-assigns over the
overlapping front `min(size_, rhs.size_)`, then destroys the surplus tail
(shrinking) or copy-constructs the missing tail after a no-op
`Reserve(rhs.size_)` (growing; `rhs.size_ <= Capacity()` on this branch),
and sets `size_ = rhs.size_`. -/
def copyAssignE (failAt c : Nat) (lhs rhs : Vec α) : ExecResult α :=
  if rhs.elems.length > lhs.cap then
    match uninitCopySlots failAt c rhs.elems
        (List.replicate rhs.elems.length .raw) 0 with
    | .ub => .ub
    | .thrown c1 arena => .thrown c1 lhs arena
    | .ok arena c1 => .ok ⟨liveVals arena, rhs.elems.length⟩ c1
  else
    match copyAssignRun failAt c rhs.elems lhs.elems with
    | .thrown c1 torn => .thrown c1 ⟨torn, lhs.cap⟩ []
    | .ok dst1 c1 =>
      if lhs.elems.length > rhs.elems.length then
        .ok ⟨dst1.take rhs.elems.length, lhs.cap⟩ c1
      else if lhs.elems.length < rhs.elems.length then
        match uninitCopyVals failAt c1 (rhs.elems.drop lhs.elems.length) with
        | .thrown c2 _ => .thrown c2 ⟨dst1, lhs.cap⟩ []
        | .ok tail c2 => .ok ⟨dst1 ++ tail, lhs.cap⟩ c2
      else .ok ⟨dst1, lhs.cap⟩ c1

/-- Model of `std::move(first, last, d_first)` as used by `Vector::Erase`:
move-assigns `count` objects from slots starting at `first` onto slots
starting at `dfirst`; assigning from or onto a non-live slot is undefined
behaviour. -/
def moveSeg : Buf α → Nat → Nat → Nat → Option (Buf α)
  | b, _, _, 0 => some b
  | b, first, dfirst, n + 1 =>
    match b[first]?, b[dfirst]? with
    | some (.live x), some (.live _) =>
      moveSeg (b.set dfirst (.live x)) (first + 1) (dfirst + 1) n
    | _, _ => none

/-- Slot-level model of `Vector::Erase` (vector.h 259-265) on an arena `b`
with `size` live slots, erasing at offset `index`: shift
`std::move(begin()+index+1, end(), begin()+index)`, then
`std::destroy_n(begin() + size_, 1)` — note the source destroys the slot at
offset `size_`, not `size_ - 1` — then decrement `size_`. -/
def eraseSlots (b : Buf α) (size index : Nat) : Option (Buf α × Nat) :=
  match moveSeg b (index + 1) index (size - (index + 1)) with
  | none => none
  | some b1 =>
    match destroy1 b1 size with
    | none => none
    | some b2 => some (b2, size - 1)

theorem set_getElem_self {β : Type} (l : List β) :
    ∀ (i : Nat) (a : β), l[i]? = some a → l.set i a = l := by
  induction l with
  | nil => intro i a h; simp at h
  | cons y ys ih =>
    intro i a h
    cases i with
    | zero => simp at h; simp [h]
    | succ j =>
      simp at h ⊢
      exact ih j a h

theorem set_append_add {β : Type} (p rest : List β) (j : Nat) (a : β) :
    (p ++ rest).set (p.length + j) a = p ++ rest.set j a := by
  rw [List.set_append]
  have hnot : ¬ (p.length + j < p.length) := by omega
  simp [hnot]

theorem writeVals_append (src : List α) :
    ∀ (p rest : Buf α) (j : Nat),
      writeVals (p ++ rest) (p.length + j) src = p ++ writeVals rest j src := by
  induction src with
  | nil => intro p rest j; rfl
  | cons x xs ih =>
    intro p rest j
    show writeVals ((p ++ rest).set (p.length + j) (.live x)) (p.length + j + 1) xs
        = p ++ writeVals (rest.set j (.live x)) (j + 1) xs
    rw [set_append_add]
    have harith : p.length + j + 1 = p.length + (j + 1) := by omega
    rw [harith, ih p (rest.set j (Slot.live x)) (j + 1)]

theorem writeVals_replicate (src : List α) :
    ∀ (n : Nat) (rest : Buf α), src.length ≤ n →
      writeVals (List.replicate n (Slot.raw : Slot α) ++ rest) 0 src
        = src.map Slot.live ++ List.replicate (n - src.length) Slot.raw ++ rest := by
  induction src with
  | nil => intro n rest h; simp [writeVals]
  | cons x xs ih =>
    intro n rest h
    match n, h with
    | m + 1, h =>
      rw [List.replicate_succ]
      show writeVals (((Slot.raw :: List.replicate m Slot.raw) ++ rest).set 0 (.live x)) 1 xs = _
      have hset : ((Slot.raw :: List.replicate m Slot.raw) ++ rest).set 0 (Slot.live x)
          = Slot.live x :: (List.replicate m Slot.raw ++ rest) := by
        simp
      rw [hset]
      have happ := writeVals_append xs [Slot.live x] (List.replicate m Slot.raw ++ rest) 0
      simp only [List.singleton_append, List.length_cons, List.length_nil, Nat.zero_add,
        Nat.add_zero] at happ
      rw [happ, ih m rest (by simpa using Nat.succ_le_succ_iff.mp (by simpa using h))]
      simp [List.replicate_succ, Nat.succ_sub_succ]

theorem replicate_set {β : Type} (a b : β) :
    ∀ (i n : Nat), i < n →
      (List.replicate n a).set i b
        = List.replicate i a ++ b :: List.replicate (n - i - 1) a := by
  intro i
  induction i with
  | zero =>
    intro n h
    match n, h with
    | m + 1, _ => simp [List.replicate_succ]
  | succ j ih =>
    intro n h
    match n, h with
    | m + 1, h =>
      rw [List.replicate_succ]
      show a :: (List.replicate m a).set j b = _
      rw [ih m (by omega)]
      simp [List.replicate_succ]

theorem liveVals_map_live (l : List α) :
    ∀ rest : Buf α, liveVals (l.map Slot.live ++ rest) = l ++ liveVals rest := by
  induction l with
  | nil => intro rest; simp
  | cons x xs ih => intro rest; simp [liveVals, ih]

theorem liveVals_replicate_raw (n : Nat) :
    liveVals (List.replicate n (Slot.raw : Slot α)) = [] := by
  induction n with
  | zero => rfl
  | succ m ih => simp [List.replicate_succ, liveVals, ih]

theorem destroyRun_map_live (l : List α) :
    ∀ (p rest : Buf α),
      destroyRun (p ++ l.map Slot.live ++ rest) p.length l.length
        = some (p ++ List.replicate l.length Slot.raw ++ rest) := by
  induction l with
  | nil => intro p rest; simp [destroyRun]
  | cons x xs ih =>
    intro p rest
    have hget : (p ++ (Slot.live x :: xs.map Slot.live) ++ rest)[p.length]?
        = some (Slot.live x) := by
      rw [List.append_assoc, List.getElem?_append_right (Nat.le_refl _), Nat.sub_self]
      simp
    have hset : (p ++ (Slot.live x :: xs.map Slot.live) ++ rest).set p.length Slot.raw
        = (p ++ [Slot.raw]) ++ xs.map Slot.live ++ rest := by
      rw [List.append_assoc]
      have := set_append_add p ((Slot.live x :: xs.map Slot.live) ++ rest) 0 Slot.raw
      simp only [Nat.add_zero] at this
      rw [this]
      simp
    have hdes : destroy1 (p ++ (Slot.live x :: xs.map Slot.live) ++ rest) p.length
        = some ((p ++ [Slot.raw]) ++ xs.map Slot.live ++ rest) := by
      simp only [destroy1, hget]
      exact congrArg some hset
    show destroyRun _ p.length (xs.length + 1) = _
    simp only [List.map_cons] at hdes ⊢
    rw [destroyRun, hdes]
    have hlen : p.length + 1 = (p ++ [Slot.raw]).length := by simp
    rw [hlen]
    show destroyRun (p ++ [Slot.raw] ++ List.map Slot.live xs ++ rest)
        ((p ++ [Slot.raw]).length) xs.length
      = some (p ++ List.replicate (x :: xs).length Slot.raw ++ rest)
    rw [ih (p ++ [Slot.raw]) rest]
    simp [List.replicate_succ, List.append_assoc]

theorem uninitCopySlots_spec (failAt : Nat) (src : List α) :
    ∀ (c : Nat) (b : Buf α) (pos : Nat),
      (∀ k, k < src.length → b[pos + k]? = some Slot.raw) →
      uninitCopySlots failAt c src b pos ≠ .ub ∧
      (∀ c1 b1, uninitCopySlots failAt c src b pos = .thrown c1 b1 → b1 = b) ∧
      (∀ b1 c1, uninitCopySlots failAt c src b pos = .ok b1 c1 →
        b1 = writeVals b pos src) := by
  induction src with
  | nil =>
    intro c b pos hraw
    refine ⟨by simp [uninitCopySlots], ?_, ?_⟩
    · intro c1 b1 h; simp [uninitCopySlots] at h
    · intro b1 c1 h
      simp [uninitCopySlots] at h
      simp [writeVals, h.1]
  | cons x xs ih =>
    intro c b pos hraw
    have hpos : b[pos]? = some Slot.raw := by
      have := hraw 0 (by simp)
      simpa using this
    have hlt : pos < b.length := by
      rcases List.getElem?_eq_some.mp hpos with ⟨hl, _⟩
      exact hl
    by_cases hc : c = failAt
    · refine ⟨by simp [uninitCopySlots, hc], ?_, ?_⟩
      · intro c1 b1 h
        simp [uninitCopySlots, hc] at h
        exact h.2.symm
      · intro b1 c1 h
        simp [uninitCopySlots, hc] at h
    · have hcon : construct1 b pos x = some (b.set pos (Slot.live x)) := by
        simp [construct1, hpos]
      have hpre : ∀ k, k < xs.length →
          (b.set pos (Slot.live x))[pos + 1 + k]? = some Slot.raw := by
        intro k hk
        rw [List.getElem?_set_ne (by omega)]
        have := hraw (k + 1) (by simp; omega)
        have harith : pos + (k + 1) = pos + 1 + k := by omega
        rwa [harith] at this
      obtain ⟨ihub, ihthrown, ihok⟩ := ih (c + 1) (b.set pos (Slot.live x)) (pos + 1) hpre
      rcases hrec : uninitCopySlots failAt (c + 1) xs (b.set pos (Slot.live x)) (pos + 1) with
        ⟨b2, c2⟩ | ⟨c2, b2⟩ | _
      · refine ⟨?_, ?_, ?_⟩
        · simp [uninitCopySlots, hc, hcon, hrec]
        · intro c1 b1 h
          simp [uninitCopySlots, hc, hcon, hrec] at h
        · intro b1 c1 h
          simp [uninitCopySlots, hc, hcon, hrec] at h
          rw [← h.1, ihok _ _ hrec]
          rfl
      · have hb2 : b2 = b.set pos (Slot.live x) := ihthrown c2 b2 hrec
        have hdes : destroy1 b2 pos = some b := by
          rw [hb2, destroy1]
          rw [List.getElem?_set_self hlt]
          rw [List.set_set]
          rw [set_getElem_self b pos Slot.raw hpos]
        refine ⟨?_, ?_, ?_⟩
        · simp [uninitCopySlots, hc, hcon, hrec, hdes]
        · intro c1 b1 h
          simp [uninitCopySlots, hc, hcon, hrec, hdes] at h
          exact h.2.symm
        · intro b1 c1 h
          simp [uninitCopySlots, hc, hcon, hrec, hdes] at h
      · exact absurd hrec ihub

theorem size_lt_growCap (n : Nat) : n < growCap n := by
  unfold growCap
  by_cases h : n = 0
  · simp [h]
  · simp [h]; omega

/-- C4: `Reserve(newCap)` is a no-op when `newCap <= capacity`; otherwise it
allocates an arena of exactly `newCap` slots, relocates every live element
into it, destroys the old elements and swaps arenas, so the result holds the
same elements with capacity exactly `newCap`; and when a copy fails
mid-relocation, the container state is exactly the pre-call one, the new
arena is discarded holding no live element (every slot raw again), and the
failure propagates — never undefined behaviour. -/
theorem reserve_noop_and_strong_safety (failAt c : Nat) (v : Vec α) (newCap : Nat)
    (hv : v.elems.length ≤ v.cap) :
    (newCap ≤ v.cap → reserveE failAt c v newCap = .ok v c) ∧
    reserveE failAt c v newCap ≠ .ub ∧
    (∀ c1 v1 arena, reserveE failAt c v newCap = .thrown c1 v1 arena →
      v1 = v ∧ arena = List.replicate newCap Slot.raw) ∧
    (∀ v1 c1, v.cap < newCap → reserveE failAt c v newCap = .ok v1 c1 →
      v1 = ⟨v.elems, newCap⟩) := by
  by_cases hle : newCap ≤ v.cap
  · refine ⟨fun _ => by simp [reserveE, hle], by simp [reserveE, hle], ?_, ?_⟩
    · intro c1 v1 arena h
      simp [reserveE, hle] at h
    · intro v1 c1 hlt h
      omega
  · have hlen : v.elems.length ≤ newCap := by omega
    have hpre : ∀ k, k < v.elems.length →
        (List.replicate newCap (Slot.raw : Slot α))[0 + k]? = some Slot.raw := by
      intro k hk
      rw [Nat.zero_add, List.getElem?_replicate]
      simp [show k < newCap by omega]
    obtain ⟨hub, hth, hok⟩ :=
      uninitCopySlots_spec failAt v.elems c (List.replicate newCap Slot.raw) 0 hpre
    rcases hrec : uninitCopySlots failAt c v.elems (List.replicate newCap Slot.raw) 0 with
      ⟨arena, c1⟩ | ⟨c1, arena⟩ | _
    · have harena : liveVals arena = v.elems := by
        rw [hok _ _ hrec]
        have hwr := writeVals_replicate v.elems newCap [] hlen
        simp only [List.append_nil] at hwr
        rw [hwr, liveVals_map_live, liveVals_replicate_raw, List.append_nil]
      have hres : reserveE failAt c v newCap = .ok ⟨v.elems, newCap⟩ c1 := by
        simp [reserveE, hle, hrec, harena]
      refine ⟨fun hc => absurd hc hle, ?_, ?_, ?_⟩
      · rw [hres]; simp
      · intro c2 v1 arena2 h
        rw [hres] at h
        simp at h
      · intro v1 c2 hlt h
        rw [hres] at h
        injection h with h1 h2
        exact h1.symm
    · have harena : arena = List.replicate newCap Slot.raw := hth _ _ hrec
      have hres : reserveE failAt c v newCap = .thrown c1 v arena := by
        simp [reserveE, hle, hrec]
      refine ⟨fun hc => absurd hc hle, ?_, ?_, ?_⟩
      · rw [hres]; simp
      · intro c2 v1 arena2 h
        rw [hres] at h
        injection h with h1 h2 h3
        exact ⟨h2.symm, by rw [← h3, harena]⟩
      · intro v1 c2 hlt h
        rw [hres] at h
        simp at h
    · exact absurd hrec hub

/-- C4 witness: reserving 4 slots on a vector `[7,8]` of capacity 2 while the
second copy (invocation number 1) throws leaves the container exactly as it
was and discards an arena with every slot raw. -/
theorem reserve_noop_and_strong_safety_witness :
    ([7, 8] : List Nat).length ≤ 2 ∧
    ((⟨[7, 8], 2⟩ : Vec Nat) = ⟨[7, 8], 2⟩ ∧
      List.replicate 4 (Slot.raw : Slot Nat) = List.replicate 4 Slot.raw) :=
  ⟨by decide,
    (reserve_noop_and_strong_safety 1 0 ⟨[7, 8], 2⟩ 4 (by decide)).2.2.1 2 ⟨[7, 8], 2⟩
      (List.replicate 4 Slot.raw) (by decide)⟩

/-- C8: on the branch of copy-assignment taken when the right-hand side's
size exceeds the current capacity, the source builds a complete temporary
copy of the right-hand side and swaps it in: on success the result is exactly
the right-hand side's elements with capacity `rhs.size`; if the copy fails at
any point the left-hand side is exactly as before and the temporary's arena
is discarded with every slot raw — never undefined behaviour. -/
theorem copyAssign_grow_strong_safety (failAt c : Nat) (lhs rhs : Vec α)
    (h : lhs.cap < rhs.elems.length) :
    copyAssignE failAt c lhs rhs ≠ .ub ∧
    (∀ c1 v1 arena, copyAssignE failAt c lhs rhs = .thrown c1 v1 arena →
      v1 = lhs ∧ arena = List.replicate rhs.elems.length Slot.raw) ∧
    (∀ v1 c1, copyAssignE failAt c lhs rhs = .ok v1 c1 →
      v1 = ⟨rhs.elems, rhs.elems.length⟩) := by
  have hpre : ∀ k, k < rhs.elems.length →
      (List.replicate rhs.elems.length (Slot.raw : Slot α))[0 + k]? = some Slot.raw := by
    intro k hk
    rw [Nat.zero_add, List.getElem?_replicate]
    simp [hk]
  obtain ⟨hub, hth, hok⟩ := uninitCopySlots_spec failAt rhs.elems c
    (List.replicate rhs.elems.length Slot.raw) 0 hpre
  rcases hrec : uninitCopySlots failAt c rhs.elems
      (List.replicate rhs.elems.length Slot.raw) 0 with
    ⟨arena, c1⟩ | ⟨c1, arena⟩ | _
  · have harena : liveVals arena = rhs.elems := by
      rw [hok _ _ hrec]
      have hwr := writeVals_replicate rhs.elems rhs.elems.length [] (Nat.le_refl _)
      simp only [List.append_nil] at hwr
      rw [hwr, liveVals_map_live, liveVals_replicate_raw, List.append_nil]
    have hres : copyAssignE failAt c lhs rhs = .ok ⟨rhs.elems, rhs.elems.length⟩ c1 := by
      simp [copyAssignE, h, hrec, harena]
    refine ⟨?_, ?_, ?_⟩
    · rw [hres]; simp
    · intro c2 v1 arena2 hh
      rw [hres] at hh
      simp at hh
    · intro v1 c2 hh
      rw [hres] at hh
      injection hh with h1 h2
      exact h1.symm
  · have harena : arena = List.replicate rhs.elems.length Slot.raw := hth _ _ hrec
    have hres : copyAssignE failAt c lhs rhs = .thrown c1 lhs arena := by
      simp [copyAssignE, h, hrec]
    refine ⟨?_, ?_, ?_⟩
    · rw [hres]; simp
    · intro c2 v1 arena2 hh
      rw [hres] at hh
      injection hh with h1 h2 h3
      exact ⟨h2.symm, by rw [← h3, harena]⟩
    · intro v1 c2 hh
      rw [hres] at hh
      simp at hh
  · exact absurd hrec hub

/-- C8 witness: assigning `[1,2,3]` onto a vector `[5]` of capacity 1 while
the second copy (invocation number 1) throws leaves the left-hand side
exactly `[5]` with capacity 1, and the discarded temporary arena is all
raw. -/
theorem copyAssign_grow_strong_safety_witness :
    (⟨[5], 1⟩ : Vec Nat).cap < (⟨[1, 2, 3], 3⟩ : Vec Nat).elems.length ∧
    ((⟨[5], 1⟩ : Vec Nat) = ⟨[5], 1⟩ ∧
      List.replicate 3 (Slot.raw : Slot Nat)
        = List.replicate (⟨[1, 2, 3], 3⟩ : Vec Nat).elems.length Slot.raw) :=
  ⟨by decide,
    (copyAssign_grow_strong_safety 1 0 ⟨[5], 1⟩ ⟨[1, 2, 3], 3⟩ (by decide)).2.1 2 ⟨[5], 1⟩
      (List.replicate 3 Slot.raw) (by decide)⟩

/-- C3: in the relocating path of Insert/Emplace the new element is
constructed first, directly in its final slot `index` of the new arena of
`growCap size` slots; on any relocation failure everything constructed in
the new arena has been destroyed again (the arena is handed to deallocation
with every slot raw: after a prefix failure the catch destroys the
just-placed new element, after a suffix failure the catch destroys the
`index+1` objects already placed) and the container state observed by the
caller is exactly the pre-call one; the old elements are destroyed and the
arenas swapped only after both relocations succeed, yielding the inserted
contents with the new capacity — and no branch destroys a dead slot or
constructs over a live one (no undefined behaviour). -/
theorem emplaceRelocate_strong_safety (failAt c : Nat) (v : Vec α) (index : Nat)
    (x : α) (h : index ≤ v.elems.length) :
    emplaceWithRelocateE failAt c v index x ≠ .ub ∧
    (∀ c1 v1 arena, emplaceWithRelocateE failAt c v index x = .thrown c1 v1 arena →
      v1 = v ∧ arena = List.replicate (growCap v.elems.length) Slot.raw) ∧
    (∀ v1 c1, emplaceWithRelocateE failAt c v index x = .ok v1 c1 →
      v1 = ⟨v.elems.take index ++ x :: v.elems.drop index, growCap v.elems.length⟩) := by
  have hlenN : v.elems.length < growCap v.elems.length := size_lt_growCap v.elems.length
  have hiN : index < growCap v.elems.length := by omega
  have hrep : (List.replicate (growCap v.elems.length) (Slot.raw : Slot α))[index]?
      = some Slot.raw := by
    rw [List.getElem?_replicate]
    simp [hiN]
  have hcon : construct1 (List.replicate (growCap v.elems.length) (Slot.raw : Slot α)) index x
      = some ((List.replicate (growCap v.elems.length) Slot.raw).set index (Slot.live x)) := by
    simp [construct1, hrep]
  have hA1split : (List.replicate (growCap v.elems.length) (Slot.raw : Slot α)).set index
        (Slot.live x)
      = List.replicate index Slot.raw
        ++ Slot.live x :: List.replicate (growCap v.elems.length - index - 1) Slot.raw :=
    replicate_set _ _ index _ hiN
  have htakelen : (v.elems.take index).length = index := by
    simp [List.length_take]
    omega
  have hpre1 : ∀ k, k < (v.elems.take index).length →
      ((List.replicate (growCap v.elems.length) (Slot.raw : Slot α)).set index
        (Slot.live x))[0 + k]? = some Slot.raw := by
    intro k hk
    rw [htakelen] at hk
    rw [Nat.zero_add, List.getElem?_set_ne (by omega), List.getElem?_replicate]
    simp [show k < growCap v.elems.length by omega]
  obtain ⟨hub1, hth1, hok1⟩ :=
    uninitCopySlots_spec failAt (v.elems.take index) c
      ((List.replicate (growCap v.elems.length) Slot.raw).set index (Slot.live x)) 0 hpre1
  rcases hrec1 : uninitCopySlots failAt c (v.elems.take index)
      ((List.replicate (growCap v.elems.length) Slot.raw).set index (Slot.live x)) 0 with
    ⟨a2, c1⟩ | ⟨c1, a⟩ | _
  · -- prefix relocation succeeded
    have ha2form : a2 = (v.elems.take index).map Slot.live
        ++ Slot.live x :: List.replicate (growCap v.elems.length - index - 1) Slot.raw := by
      rw [hok1 _ _ hrec1, hA1split]
      have hwr := writeVals_replicate (v.elems.take index) index
        (Slot.live x :: List.replicate (growCap v.elems.length - index - 1) Slot.raw)
        (Nat.le_of_eq htakelen)
      rw [hwr, htakelen]
      simp
    have hlf : ((v.elems.take index).map Slot.live ++ [Slot.live x]).length = index + 1 := by
      rw [List.length_append, List.length_map, htakelen, List.length_singleton]
    have hassoc : (v.elems.take index).map Slot.live
        ++ Slot.live x :: List.replicate (growCap v.elems.length - index - 1) Slot.raw
        = ((v.elems.take index).map Slot.live ++ [Slot.live x])
          ++ List.replicate (growCap v.elems.length - index - 1) Slot.raw := by
      simp
    have hdroplen : (v.elems.drop index).length = v.elems.length - index := by
      simp
    have hpre2 : ∀ k, k < (v.elems.drop index).length →
        a2[(index + 1) + k]? = some Slot.raw := by
      intro k hk
      rw [hdroplen] at hk
      rw [ha2form, hassoc, List.getElem?_append_right (by rw [hlf]; omega), hlf]
      have harith : index + 1 + k - (index + 1) = k := by omega
      rw [harith, List.getElem?_replicate]
      simp [show k < growCap v.elems.length - index - 1 by omega]
    obtain ⟨hub2, hth2, hok2⟩ :=
      uninitCopySlots_spec failAt (v.elems.drop index) c1 a2 (index + 1) hpre2
    rcases hrec2 : uninitCopySlots failAt c1 (v.elems.drop index) a2 (index + 1) with
      ⟨a3, c2⟩ | ⟨c2, a⟩ | _
    · -- suffix relocation succeeded: destroy the old elements, swap arenas
      have ha3form : liveVals a3 = v.elems.take index ++ x :: v.elems.drop index := by
        rw [hok2 _ _ hrec2, ha2form, hassoc]
        have hwv := writeVals_append (v.elems.drop index)
          ((v.elems.take index).map Slot.live ++ [Slot.live x])
          (List.replicate (growCap v.elems.length - index - 1) Slot.raw) 0
        rw [hlf] at hwv
        simp only [Nat.add_zero] at hwv
        rw [hwv]
        have hKlen : (v.elems.drop index).length
            ≤ growCap v.elems.length - index - 1 := by
          rw [hdroplen]
          omega
        have hwr := writeVals_replicate (v.elems.drop index)
          (growCap v.elems.length - index - 1) [] hKlen
        simp only [List.append_nil] at hwr
        rw [hwr, List.append_assoc, liveVals_map_live, List.singleton_append]
        simp only [liveVals]
        rw [liveVals_map_live, liveVals_replicate_raw, List.append_nil]
      have hres : emplaceWithRelocateE failAt c v index x
          = .ok ⟨v.elems.take index ++ x :: v.elems.drop index,
              growCap v.elems.length⟩ c2 := by
        simp [emplaceWithRelocateE, hcon, hrec1, hrec2, ha3form]
      refine ⟨?_, ?_, ?_⟩
      · rw [hres]; simp
      · intro c3 v1 arena hh
        rw [hres] at hh
        simp at hh
      · intro v1 c3 hh
        rw [hres] at hh
        injection hh with h1 h2
        exact h1.symm
    · -- suffix relocation threw: the catch destroys the index+1 placed objects
      have ha : a = a2 := hth2 _ _ hrec2
      have hmap : a2 = ((v.elems.take index ++ [x]).map Slot.live)
          ++ List.replicate (growCap v.elems.length - index - 1) Slot.raw := by
        rw [ha2form, hassoc]
        simp
      have hcnt : (v.elems.take index ++ [x]).length = index + 1 := by
        simp [htakelen]
      have hdesrun : destroyRun a 0 (index + 1)
          = some (List.replicate (growCap v.elems.length) Slot.raw) := by
        rw [ha, hmap, ← hcnt]
        have hdm := destroyRun_map_live (v.elems.take index ++ [x]) []
          (List.replicate (growCap v.elems.length - index - 1) Slot.raw)
        simp only [List.length_nil, List.nil_append] at hdm
        rw [hdm, hcnt]
        rw [← List.replicate_add]
        have harith : index + 1 + (growCap v.elems.length - index - 1)
            = growCap v.elems.length := by omega
        rw [harith]
      have hres : emplaceWithRelocateE failAt c v index x
          = .thrown c2 v (List.replicate (growCap v.elems.length) Slot.raw) := by
        simp [emplaceWithRelocateE, hcon, hrec1, hrec2, hdesrun]
      refine ⟨?_, ?_, ?_⟩
      · rw [hres]; simp
      · intro c3 v1 arena hh
        rw [hres] at hh
        injection hh with h1 h2 h3
        exact ⟨h2.symm, h3.symm⟩
      · intro v1 c3 hh
        rw [hres] at hh
        simp at hh
    · exact absurd hrec2 hub2
  · -- prefix relocation threw: the catch destroys the just-placed new element
    have ha : a = (List.replicate (growCap v.elems.length) Slot.raw).set index
        (Slot.live x) := hth1 _ _ hrec1
    have hself : a[index]? = some (Slot.live x) := by
      rw [ha]
      exact List.getElem?_set_self (by simp [hiN])
    have hdes : destroy1 a index = some (List.replicate (growCap v.elems.length) Slot.raw) := by
      simp only [destroy1, hself]
      rw [ha, List.set_set, set_getElem_self _ _ _ hrep]
    have hres : emplaceWithRelocateE failAt c v index x
        = .thrown c1 v (List.replicate (growCap v.elems.length) Slot.raw) := by
      simp [emplaceWithRelocateE, hcon, hrec1, hdes]
    refine ⟨?_, ?_, ?_⟩
    · rw [hres]; simp
    · intro c3 v1 arena hh
      rw [hres] at hh
      injection hh with h1 h2 h3
      exact ⟨h2.symm, h3.symm⟩
    · intro v1 c3 hh
      rw [hres] at hh
      simp at hh
  · exact absurd hrec1 hub1

/-- C3 witness: emplacing 9 at offset 2 of the full vector `[1,2,3]` while
the second copy (invocation number 1, inside the prefix relocation) throws
leaves the container exactly as it was and discards a new arena of
`growCap 3 = 6` slots with every slot raw. -/
theorem emplaceRelocate_strong_safety_witness :
    2 ≤ ([1, 2, 3] : List Nat).length ∧
    ((⟨[1, 2, 3], 3⟩ : Vec Nat) = ⟨[1, 2, 3], 3⟩ ∧
      List.replicate 6 (Slot.raw : Slot Nat)
        = List.replicate (growCap ([1, 2, 3] : List Nat).length) Slot.raw) :=
  ⟨by decide,
    (emplaceRelocate_strong_safety 1 0 ⟨[1, 2, 3], 3⟩ 2 9 (by decide)).2.1 2
      ⟨[1, 2, 3], 3⟩ (List.replicate 6 Slot.raw) (by decide)⟩

/-- C1 evaluation: `Vector::Erase` at the front of the sequence `[1,2,3]`
(size 3, with capacity 3 or with a spare fourth slot).  After the shift the
last live slot is offset 2 (`size-1`), holding a moved-from object, but the
source executes `std::destroy_n(begin() + size_, 1)`, i.e. destroys offset 3
— one past the live range, raw memory — which the slot model flags as
undefined behaviour (`none`), while the element at offset `size-1` is never
destroyed.  The third conjunct shows the slot the claim names (offset
`size-1` of the shifted buffer, still live) is the one a destroy could
legitimately target. -/
theorem erase_destroys_past_end :
    eraseSlots ([Slot.live 1, Slot.live 2, Slot.live 3] : Buf Nat) 3 0 = none ∧
    eraseSlots ([Slot.live 1, Slot.live 2, Slot.live 3, Slot.raw] : Buf Nat) 3 0 = none ∧
    (destroy1 ([Slot.live 2, Slot.live 3, Slot.live 3] : Buf Nat) 2).isSome = true := by
  decide

/-- C7 evaluation: the insert-then-erase round trip fails on the code.  On
the spec's concrete sequence `[1,2,3]` (size 3, capacity 3), `Insert` at
offset 1 of value 9 relocates into a capacity-6 arena whose live slots
`[0,4)` hold `[1,9,2,3]` (first conjunct, the value-level `emplace`).  The
immediately following `Erase` at offset 1 on that state is undefined
behaviour in the slot model (second conjunct): after the shift the code
destroys the slot at offset `size` = 4 — raw memory.  And even with the
errant destroy disregarded, the shift alone (third conjunct, the
`std::move` step of Erase) leaves a live moved-from duplicate of the last
element in slot 3, the slot that is one-past-end once `size` drops back
to 3, where the pre-insert state had raw memory; that duplicate is never
destroyed, so the original state is not restored. -/
theorem insert_then_erase_not_restored :
    (emplace (⟨[1, 2, 3], 3⟩ : Vec Nat) 1 9).1 = ⟨[1, 9, 2, 3], 6⟩ ∧
    eraseSlots ([Slot.live 1, Slot.live 9, Slot.live 2, Slot.live 3,
      Slot.raw, Slot.raw] : Buf Nat) 4 1 = none ∧
    moveSeg ([Slot.live 1, Slot.live 9, Slot.live 2, Slot.live 3,
      Slot.raw, Slot.raw] : Buf Nat) 2 1 2
      = some [Slot.live 1, Slot.live 2, Slot.live 3, Slot.live 3,
          Slot.raw, Slot.raw] := by
  decide

/-- Arena part of the event model: `RawMemory` as an optional owned block
identity plus a capacity (`buffer_` is null iff no block is owned). -/
structure MRaw where
  block : Option Nat
  cap : Nat
  deriving DecidableEq, Repr

/-- Container part of the event model: `Vector` as its owned `RawMemory`
plus the identities of its live elements in slot order (`objs.length` is
`size_`). -/
structure MVec where
  data : MRaw
  objs : List Nat
  deriving DecidableEq, Repr

/-- Lifecycle events a container operation can emit. -/
inductive Ev where
  | allocBlock (b : Nat)
  | freeBlock (b : Nat)
  | constructObj (o : Nat)
  | destroyObj (o : Nat)
  deriving DecidableEq, Repr

/-- Event model of `RawMemory::operator=(RawMemory&&)` (vector.h 29-38), for
distinct operands: `Deallocate(buffer_)` frees the currently owned block
(emitting its free event; `operator delete` on null emits nothing), then the
right-hand side's block and capacity are stolen and the right-hand side is
reset to null/0.  Returns (new lhs, new rhs, emitted events). -/
def rawMoveAssignEv (lhs rhs : MRaw) : MRaw × MRaw × List Ev :=
  (⟨rhs.block, rhs.cap⟩, ⟨none, 0⟩,
    match lhs.block with
    | some b => [.freeBlock b]
    | none => [])

/-- Event model of `Vector::operator=(Vector&&)` (vector.h 160-167), for
distinct operands: `data_ = std::move(rhs.data_)` (which is
`RawMemory::operator=(RawMemory&&)` above — the only statement that touches
any block or object), then `size_ = rhs.size_; rhs.size_ = 0`.  No
`std::destroy_n` is executed anywhere on this path, so the only events are
those of the arena move-assignment. -/
def vecMoveAssignEv (lhs rhs : MVec) : MVec × MVec × List Ev :=
  (⟨(rawMoveAssignEv lhs.data rhs.data).1, rhs.objs⟩,
   ⟨(rawMoveAssignEv lhs.data rhs.data).2.1, []⟩,
   (rawMoveAssignEv lhs.data rhs.data).2.2)

/-- Event model of `Vector::Vector(Vector&&)` (vector.h 114-119):
`data_(std::move(other.data_))` steals block and capacity via `RawMemory`'s
move constructor (which deallocates nothing and resets the source), then
`size_(other.size_); other.size_ = 0`.  No event is emitted: nothing is
allocated, freed, constructed or destroyed. -/
def vecMoveCtorEv (other : MVec) : MVec × MVec × List Ev :=
  (⟨other.data, other.objs⟩, ⟨⟨none, 0⟩, []⟩, [])

/-- C2 evaluation: move-assigning a vector with one live element (in block 2)
onto a vector that itself holds one live element (object 10, residing in
block 1) frees block 1 — the event trace is exactly `[freeBlock 1]` — while
object 10 is live in that block and no destruction of it is ever emitted on
this path.  So a block is released while it still holds a live, never
destroyed element, which is what the claim forbids. -/
theorem moveAssign_frees_live_block :
    (vecMoveAssignEv ⟨⟨some 1, 1⟩, [10]⟩ ⟨⟨some 2, 1⟩, [20]⟩).2.2 = [.freeBlock 1] ∧
    (⟨⟨some 1, 1⟩, [10]⟩ : MVec).objs = [10] ∧
    Ev.destroyObj 10 ∉ (vecMoveAssignEv ⟨⟨some 1, 1⟩, [10]⟩ ⟨⟨some 2, 1⟩, [20]⟩).2.2 := by
  decide

/-- C9: moving a vector `A` into a vector `B`, by move construction or move
assignment, is a total (never-failing) operation after which `B` holds
exactly `A`'s prior arena and live elements (same identities, in order,
hence same size), and `A` is empty: size 0 and its arena reset to a null
block of capacity 0; and during either move no construct and no destroy
event at all is emitted, so in particular no live element is destroyed or
constructed twice. -/
theorem move_transfer_no_double_lifecycle (A B : MVec) :
    (vecMoveCtorEv A).1 = ⟨A.data, A.objs⟩ ∧
    (vecMoveCtorEv A).2.1 = ⟨⟨none, 0⟩, []⟩ ∧
    (vecMoveCtorEv A).2.2 = [] ∧
    (vecMoveAssignEv B A).1 = ⟨A.data, A.objs⟩ ∧
    (vecMoveAssignEv B A).2.1 = ⟨⟨none, 0⟩, []⟩ ∧
    (∀ o, Ev.destroyObj o ∉ (vecMoveAssignEv B A).2.2 ∧
      Ev.constructObj o ∉ (vecMoveAssignEv B A).2.2) := by
  refine ⟨rfl, rfl, rfl, rfl, rfl, ?_⟩
  intro o
  unfold vecMoveAssignEv rawMoveAssignEv
  rcases B.data.block with _ | b <;> simp

/-- C9 witness: the concrete move-assignment of `A` (block 1, objects 10, 11)
into `B` (block 2, object 20). -/
theorem move_transfer_no_double_lifecycle_witness :
    (vecMoveAssignEv ⟨⟨some 2, 1⟩, [20]⟩ ⟨⟨some 1, 2⟩, [10, 11]⟩).1
      = ⟨⟨some 1, 2⟩, [10, 11]⟩ ∧
    (vecMoveAssignEv ⟨⟨some 2, 1⟩, [20]⟩ ⟨⟨some 1, 2⟩, [10, 11]⟩).2.1
      = ⟨⟨none, 0⟩, []⟩ :=
  ⟨(move_transfer_no_double_lifecycle ⟨⟨some 1, 2⟩, [10, 11]⟩ ⟨⟨some 2, 1⟩, [20]⟩).2.2.2.1,
   (move_transfer_no_double_lifecycle ⟨⟨some 1, 2⟩, [10, 11]⟩ ⟨⟨some 2, 1⟩, [20]⟩).2.2.2.2.1⟩
